import Mathlib

/-!
Verification of the `procfs` status/nfsd parsing core.

Shallow embedding of `src/proc_status.go` and the record types of `src/nfsd.go`.
The input stream handed to `readStatus` is modelled as its full content,
a `List Char`; `bufio.Reader.ReadString` becomes `splitLines` (each complete
line keeps its trailing newline, exactly as `ReadString('\n')` returns it;
a final unterminated chunk is returned together with the read error and its
content is discarded by `readStatus`, so it never forms a line).

`fmt.Sscanf` is embedded by `scanf`, restricted to the format directives the
scanner table actually uses: literal characters, runs of spaces, and `%d`.
Its semantics follow Go's `fmt` scanning rules for these directives:
a run of spaces in the format matches one or more space characters of the
input (or the end of the input); `%d` skips spaces, then reads an optional
sign and a maximal run of decimal digits; a newline in the input is not
matched by a space in the format; matching stops as soon as the format is
exhausted, leftover input is ignored; `%d` assigns its operand as soon as it
parses, so a later mismatch leaves earlier operands assigned.  Go machine
integers are modelled as unbounded `Int` (status values never approach 2^63).
-/

set_option maxRecDepth 8000

/-- Space characters as Go's `fmt` scanner treats them inside a line
(newline is special: it only matches a newline in the format, and the
formats used here contain none, so it is excluded). -/
def isSpace (c : Char) : Bool :=
  c = ' ' || c = '\t' || c = '\x0b' || c = '\x0c' || c = '\r'

/-- Decimal value of a digit run, most significant first. -/
def natOfDigits (ds : List Char) : Nat :=
  ds.foldl (fun n c => 10 * n + (c.toNat - 48)) 0

/-- Maximal-munch unsigned decimal: at least one digit, returns the value and
the unconsumed input. -/
def scanUnsigned (input : List Char) : Option (Nat × List Char) :=
  match input.takeWhile Char.isDigit with
  | [] => none
  | ds => some (natOfDigits ds, input.dropWhile Char.isDigit)

/-- `%d`: optional sign then a maximal run of decimal digits, as Go's
`scanInt` reads base-10 input. -/
def scanDecimal (input : List Char) : Option (Int × List Char) :=
  match input with
  | '-' :: rest => (scanUnsigned rest).map (fun p => (-(p.1 : Int), p.2))
  | '+' :: rest => (scanUnsigned rest).map (fun p => ((p.1 : Int), p.2))
  | _ => (scanUnsigned input).map (fun p => ((p.1 : Int), p.2))

/-- The `fmt.Sscanf` matching loop for the directives used by
`newProcStatusBuilder` (literals, space runs, `%d`).  The `Bool` flag is true
while inside a space run whose input-space requirement is already satisfied
(Go collapses a run of format spaces into one requirement).  Returns the
list of `%d` values assigned so far (Go assigns through the operand pointers
as it scans, so the list is meaningful even on failure) and whether the
whole format was matched (`err == nil`). -/
def scanf : List Char → Bool → List Char → List Int → List Int × Bool
  | [], _, _, acc => (acc, true)
  | c :: fmt, sp, input, acc =>
    if c = ' ' then
      if sp then scanf fmt true input acc
      else
        match input with
        | [] => scanf fmt true [] acc
        | d :: _ =>
          if isSpace d then scanf fmt true (input.dropWhile isSpace) acc
          else (acc, false)
    else if c = '%' then
      match fmt with
      | [] => (acc, false)
      | f :: fmt' =>
        if f = 'd' then
          match scanDecimal (input.dropWhile isSpace) with
          | none => (acc, false)
          | some (v, rest) => scanf fmt' false rest (acc ++ [v])
        else (acc, false)
    else
      match input with
      | [] => (acc, false)
      | d :: rest => if d = c then scanf fmt false rest acc else (acc, false)
termination_by structural fmt _ _ _ => fmt

/-- Number of `%d` directives in a format, following `scanf`'s traversal. -/
def countD : List Char → Nat
  | [] => 0
  | c :: fmt =>
    if c = '%' then
      match fmt with
      | [] => 0
      | f :: fmt' => if f = 'd' then countD fmt' + 1 else 0
    else countD fmt
termination_by structural fmt => fmt

/-- `ProcStatus` from `src/proc_status.go`: status information about a
process, read from /proc/[pid]/status. -/
structure ProcStatus where
  TID : Int
  TracerPid : Int
  UIDReal : Int
  UIDEffective : Int
  UIDSavedSet : Int
  UIDFileSystem : Int
  GIDReal : Int
  GIDEffective : Int
  GIDSavedSet : Int
  GIDFileSystem : Int
  FDSize : Int
  VmPeakKB : Int
  VmSizeKB : Int
  VmLckKB : Int
  VmHWMKB : Int
  VmRSSKB : Int
  VmDataKB : Int
  VmStkKB : Int
  VmExeKB : Int
  VmLibKB : Int
  VmPTEKB : Int
  VmSwapKB : Int
  VoluntaryCtxtSwitches : Int
  NonvoluntaryCtxtSwitches : Int
deriving DecidableEq

/-- The Go zero value `ProcStatus{}`, also the state of `b.ps` right after
`var b procStatusBuilder`. -/
def zeroStatus : ProcStatus :=
  ⟨0, 0, 0, 0, 0, 0, 0, 0, 0, 0, 0, 0, 0, 0, 0, 0, 0, 0, 0, 0, 0, 0, 0, 0⟩

/-- One `procStatusScanner`: the format string and, in place of the Go
pointers `args`, one field-update function per `%d` operand. -/
structure procStatusScanner where
  format : List Char
  args : List (ProcStatus → Int → ProcStatus)

/-- Assign the scanned values to the operands in order, exactly as `Sscanf`
writes through `s.args`: the k-th parsed value goes to the k-th operand;
values or operands left over are simply not used. -/
def applyArgs : List (ProcStatus → Int → ProcStatus) → List Int → ProcStatus → ProcStatus
  | [], _, ps => ps
  | _ :: _, [], ps => ps
  | g :: gs, v :: vs, ps => applyArgs gs vs (g ps v)

/-- Scanner `{"Pid: %d", &b.ps.TID}`. -/
def pidScanner : procStatusScanner :=
  ⟨"Pid: %d".toList, [fun ps v => { ps with TID := v }]⟩

/-- Scanner `{"TracerPid: %d", &b.ps.TracerPid}`. -/
def tracerPidScanner : procStatusScanner :=
  ⟨"TracerPid: %d".toList, [fun ps v => { ps with TracerPid := v }]⟩

/-- Scanner `{"Uid: %d %d %d %d", ...}`. -/
def uidScanner : procStatusScanner :=
  ⟨"Uid: %d %d %d %d".toList,
    [fun ps v => { ps with UIDReal := v },
     fun ps v => { ps with UIDEffective := v },
     fun ps v => { ps with UIDSavedSet := v },
     fun ps v => { ps with UIDFileSystem := v }]⟩

/-- Scanner `{"Gid: %d %d %d %d", ...}`. -/
def gidScanner : procStatusScanner :=
  ⟨"Gid: %d %d %d %d".toList,
    [fun ps v => { ps with GIDReal := v },
     fun ps v => { ps with GIDEffective := v },
     fun ps v => { ps with GIDSavedSet := v },
     fun ps v => { ps with GIDFileSystem := v }]⟩

/-- Scanner `{"FDSize: %d", &b.ps.FDSize}`. -/
def fdSizeScanner : procStatusScanner :=
  ⟨"FDSize: %d".toList, [fun ps v => { ps with FDSize := v }]⟩

/-- Scanner `{"VmPeak: %d kB", &b.ps.VmPeakKB}`. -/
def vmPeakScanner : procStatusScanner :=
  ⟨"VmPeak: %d kB".toList, [fun ps v => { ps with VmPeakKB := v }]⟩

/-- Scanner `{"VmSize: %d kB", &b.ps.VmSizeKB}`. -/
def vmSizeScanner : procStatusScanner :=
  ⟨"VmSize: %d kB".toList, [fun ps v => { ps with VmSizeKB := v }]⟩

/-- Scanner `{"VmLck:  %d kB", &b.ps.VmLckKB}` (two spaces in the format). -/
def vmLckScanner : procStatusScanner :=
  ⟨"VmLck:  %d kB".toList, [fun ps v => { ps with VmLckKB := v }]⟩

/-- Scanner `{"VmHWM:  %d kB", &b.ps.VmHWMKB}`. -/
def vmHWMScanner : procStatusScanner :=
  ⟨"VmHWM:  %d kB".toList, [fun ps v => { ps with VmHWMKB := v }]⟩

/-- Scanner `{"VmRSS:  %d kB", &b.ps.VmRSSKB}`. -/
def vmRSSScanner : procStatusScanner :=
  ⟨"VmRSS:  %d kB".toList, [fun ps v => { ps with VmRSSKB := v }]⟩

/-- Scanner `{"VmData: %d kB", &b.ps.VmDataKB}`. -/
def vmDataScanner : procStatusScanner :=
  ⟨"VmData: %d kB".toList, [fun ps v => { ps with VmDataKB := v }]⟩

/-- Scanner `{"VmStk:  %d kB", &b.ps.VmStkKB}`. -/
def vmStkScanner : procStatusScanner :=
  ⟨"VmStk:  %d kB".toList, [fun ps v => { ps with VmStkKB := v }]⟩

/-- Scanner `{"VmExe:  %d kB", &b.ps.VmExeKB}`. -/
def vmExeScanner : procStatusScanner :=
  ⟨"VmExe:  %d kB".toList, [fun ps v => { ps with VmExeKB := v }]⟩

/-- Scanner `{"VmLib:  %d kB", &b.ps.VmLibKB}`. -/
def vmLibScanner : procStatusScanner :=
  ⟨"VmLib:  %d kB".toList, [fun ps v => { ps with VmLibKB := v }]⟩

/-- Scanner `{"VmPTE:  %d kB", &b.ps.VmPTEKB}`. -/
def vmPTEScanner : procStatusScanner :=
  ⟨"VmPTE:  %d kB".toList, [fun ps v => { ps with VmPTEKB := v }]⟩

/-- Scanner `{"VmSwap: %d kB", &b.ps.VmSwapKB}`. -/
def vmSwapScanner : procStatusScanner :=
  ⟨"VmSwap: %d kB".toList, [fun ps v => { ps with VmSwapKB := v }]⟩

/-- Scanner `{"voluntary_ctxt_switches:    %d", ...}`. -/
def voluntaryScanner : procStatusScanner :=
  ⟨"voluntary_ctxt_switches:    %d".toList,
    [fun ps v => { ps with VoluntaryCtxtSwitches := v }]⟩

/-- Scanner `{"nonvoluntary_ctxt_switches: %d", ...}`. -/
def nonvoluntaryScanner : procStatusScanner :=
  ⟨"nonvoluntary_ctxt_switches: %d".toList,
    [fun ps v => { ps with NonvoluntaryCtxtSwitches := v }]⟩

/-- The scanner table built by `newProcStatusBuilder`, in source order. -/
def statusScanners : List procStatusScanner :=
  [pidScanner, tracerPidScanner, uidScanner, gidScanner, fdSizeScanner,
   vmPeakScanner, vmSizeScanner, vmLckScanner, vmHWMScanner, vmRSSScanner,
   vmDataScanner, vmStkScanner, vmExeScanner, vmLibScanner, vmPTEScanner,
   vmSwapScanner, voluntaryScanner, nonvoluntaryScanner]

/-- `fmt.Sscanf(line, s.format, s.args...)` succeeded (`err == nil`). -/
def matchOK (s : procStatusScanner) (l : List Char) : Bool :=
  (scanf s.format false l []).2

/-- The effect of one `Sscanf` call on `b.ps`: whatever operands were
assigned before the call succeeded or failed. -/
def attemptWrite (s : procStatusScanner) (ps : ProcStatus) (l : List Char) : ProcStatus :=
  applyArgs s.args (scanf s.format false l []).1 ps

/-- Error classes of `readStatus` results, spec section 7: an I/O /
end-of-stream failure from the reader, versus a format mismatch from
`Sscanf`.  The latter is produced inside the match loop and swallowed
(the loop just reads another line), which the theorems below make precise. -/
inductive ParseError where
  | readError
  | formatError
deriving DecidableEq

/-- The inner `for { line, err := r.ReadString('\n'); ... }` loop of
`readStatus` for one scanner: try each successive line; a failed `Sscanf`
still leaves its partial assignments in `b.ps`; a successful one breaks out.
`none` models `ReadString` failing (end of stream) first. -/
def scanUntilMatch (s : procStatusScanner) : ProcStatus → List (List Char) → Option (ProcStatus × List (List Char))
  | _, [] => none
  | ps, l :: ls =>
    if matchOK s l then some (attemptWrite s ps l, ls)
    else scanUntilMatch s (attemptWrite s ps l) ls

/-- The `readStatus` loop over the scanner table: on a read failure it
returns `ProcStatus{}` and the read error, otherwise `b.ps` once every
scanner has matched. -/
def readStatusAux : List procStatusScanner → ProcStatus → List (List Char) → ProcStatus × Option ParseError
  | [], ps, _ => (ps, none)
  | s :: ss, ps, ls =>
    match scanUntilMatch s ps ls with
    | none => (zeroStatus, some ParseError.readError)
    | some (ps', ls') => readStatusAux ss ps' ls'

/-- `(b *procStatusBuilder) readStatus(r)` for a fresh builder, on the
stream's complete lines. -/
def readStatus (ls : List (List Char)) : ProcStatus × Option ParseError :=
  readStatusAux statusScanners zeroStatus ls

/-- Split stream content into the complete lines that successive
`ReadString('\n')` calls return (each includes its newline); characters
after the last newline are only ever returned together with a read error,
and `readStatus` discards them, so they form no line. -/
def splitLinesAux : List Char → List Char → List (List Char)
  | [], _ => []
  | c :: rest, acc =>
    if c = '\n' then (acc ++ ['\n']) :: splitLinesAux rest []
    else splitLinesAux rest (acc ++ [c])

/-- All complete lines of the content. -/
def splitLines (content : List Char) : List (List Char) :=
  splitLinesAux content []

/-- Concatenation of a list of lines. -/
def joinLines : List (List Char) → List Char
  | [] => []
  | l :: ls => l ++ joinLines ls

/-- `Proc.NewStatus` minus the file open: build a fresh
`procStatusBuilder` and run `readStatus` over the content. -/
def NewStatus (content : List Char) : ProcStatus × Option ParseError :=
  readStatus (splitLines content)

/-- `NFSdv3Stats` from `src/nfsd.go`: the proc3 line, NFSv3 stats.
`Values` should be 22; the 22 procedure counters follow in declared order.
Go `uint64` counters are modelled as `Nat`. -/
structure NFSdv3Stats where
  Values : Nat
  Null : Nat
  GetAttr : Nat
  SetAttr : Nat
  Lookup : Nat
  Access : Nat
  ReadLink : Nat
  Read : Nat
  Write : Nat
  Create : Nat
  MkDir : Nat
  SymLink : Nat
  MkNod : Nat
  Remove : Nat
  RmDir : Nat
  Rename : Nat
  Link : Nat
  ReadDir : Nat
  ReadDirPlus : Nat
  FsStat : Nat
  FsInfo : Nat
  PathConf : Nat
  Commit : Nat
deriving DecidableEq

/-- `NFSdv4Ops` from `src/nfsd.go`: the proc4ops line, one counter per
NFSv4 operation; `Values` varies with the protocol minor version.  The
fields after `Access` appear without a type in the source rendering; they
are `uint64` like the surrounding fields.  38 operation counters. -/
structure NFSdv4Ops where
  Values : Nat
  Op0Unused : Nat
  Op1Unused : Nat
  Op2Future : Nat
  Access : Nat
  Close : Nat
  Commit : Nat
  Create : Nat
  DelegPurge : Nat
  DelegReturn : Nat
  GetAttr : Nat
  GetFH : Nat
  Link : Nat
  Lock : Nat
  Lockt : Nat
  Locku : Nat
  Lookup : Nat
  LookupRoot : Nat
  Nverify : Nat
  Open : Nat
  OpenAttr : Nat
  OpenConfirm : Nat
  OpenDgrd : Nat
  PutFH : Nat
  PutPubFH : Nat
  PutRootFH : Nat
  Read : Nat
  ReadDir : Nat
  ReadLink : Nat
  Remove : Nat
  Rename : Nat
  Renew : Nat
  RestoreFH : Nat
  SaveFH : Nat
  SecInfo : Nat
  SetAttr : Nat
  Verify : Nat
  Write : Nat
  RelLockOwner : Nat
deriving DecidableEq

/-- Modelled from the spec: the parser for `proc3` tag lines is not under
src/ (src/nfsd.go declares only the record types).  Spec section 4.3: the
first numeric token after the tag is `Values`, the count of following
counters; parse up to `min(Values, 22)` subsequent tokens into the named
counters in declared order; a counter beyond `Values` keeps its zero
default; excess trailing tokens are ignored.  Input is the line's numeric
tokens after the `proc3` tag; `none` is a line with no token at all. -/
def parseProc3 (toks : List Nat) : Option NFSdv3Stats :=
  match toks with
  | [] => none
  | v :: cs =>
    let t := cs.take (min v 22)
    some ⟨v,
      t.getD 0 0, t.getD 1 0, t.getD 2 0, t.getD 3 0, t.getD 4 0,
      t.getD 5 0, t.getD 6 0, t.getD 7 0, t.getD 8 0, t.getD 9 0,
      t.getD 10 0, t.getD 11 0, t.getD 12 0, t.getD 13 0, t.getD 14 0,
      t.getD 15 0, t.getD 16 0, t.getD 17 0, t.getD 18 0, t.getD 19 0,
      t.getD 20 0, t.getD 21 0⟩

/-- Modelled from the spec: the parser for `proc4ops` tag lines is not
under src/ (src/nfsd.go declares only the record types).  Spec section 4.3:
`Values` is the declared count; parse up to `min(Values, 38)` tokens into
the named operation counters in declared order; counters beyond `Values`
stay zero; when `Values` exceeds the 38 known fields the excess trailing
tokens are ignored rather than causing a failure. -/
def parseProc4ops (toks : List Nat) : Option NFSdv4Ops :=
  match toks with
  | [] => none
  | v :: cs =>
    let t := cs.take (min v 38)
    some ⟨v,
      t.getD 0 0, t.getD 1 0, t.getD 2 0, t.getD 3 0, t.getD 4 0,
      t.getD 5 0, t.getD 6 0, t.getD 7 0, t.getD 8 0, t.getD 9 0,
      t.getD 10 0, t.getD 11 0, t.getD 12 0, t.getD 13 0, t.getD 14 0,
      t.getD 15 0, t.getD 16 0, t.getD 17 0, t.getD 18 0, t.getD 19 0,
      t.getD 20 0, t.getD 21 0, t.getD 22 0, t.getD 23 0, t.getD 24 0,
      t.getD 25 0, t.getD 26 0, t.getD 27 0, t.getD 28 0, t.getD 29 0,
      t.getD 30 0, t.getD 31 0, t.getD 32 0, t.getD 33 0, t.getD 34 0,
      t.getD 35 0, t.getD 36 0, t.getD 37 0⟩

/-- A scanner absorbs junk writes: once a line matches it (assigning all its
operands), whatever a previous failed or spurious `Sscanf` attempt against
the same scanner had written is overwritten. -/
def AbsorbsJunk (s : procStatusScanner) : Prop :=
  ∀ (ps : ProcStatus) (l junk : List Char), matchOK s l = true →
    attemptWrite s (attemptWrite s ps junk) l = attemptWrite s ps l

/-- The record built from the matching lines alone: each scanner assigns
the values extracted from its own matching line, in table order. -/
def cleanWrites : List procStatusScanner → List (List Char) → ProcStatus → ProcStatus
  | [], _, ps => ps
  | _ :: _, [], ps => ps
  | s :: ss, l :: ms, ps => cleanWrites ss ms (attemptWrite s ps l)

/-- A status file carrying the first 17 of the required labeled lines in
kernel-canonical order (every required line except
`nonvoluntary_ctxt_switches`). -/
def statusFile17 : List Char :=
  ("Pid:\t101\n" ++ "TracerPid:\t0\n" ++ "Uid:\t1000\t1001\t1002\t1003\n" ++
   "Gid:\t2000\t2001\t2002\t2003\n" ++ "FDSize:\t64\n" ++ "VmPeak:\t901 kB\n" ++
   "VmSize:\t902 kB\n" ++ "VmLck:\t3 kB\n" ++ "VmHWM:\t904 kB\n" ++
   "VmRSS:\t905 kB\n" ++ "VmData:\t906 kB\n" ++ "VmStk:\t132 kB\n" ++
   "VmExe:\t908 kB\n" ++ "VmLib:\t909 kB\n" ++ "VmPTE:\t40 kB\n" ++
   "VmSwap:\t7 kB\n" ++ "voluntary_ctxt_switches:\t42\n").toList

/-- A status file whose `TracerPid:` line is absent (all other required
lines present in canonical order). -/
def statusFileNoTracer : List Char :=
  ("Name:\tcat\n" ++ "Pid:\t101\n" ++ "Uid:\t1000\t1001\t1002\t1003\n" ++
   "Gid:\t2000\t2001\t2002\t2003\n" ++ "FDSize:\t64\n" ++ "VmPeak:\t901 kB\n" ++
   "VmSize:\t902 kB\n" ++ "VmLck:\t3 kB\n" ++ "VmHWM:\t904 kB\n" ++
   "VmRSS:\t905 kB\n" ++ "VmData:\t906 kB\n" ++ "VmStk:\t132 kB\n" ++
   "VmExe:\t908 kB\n" ++ "VmLib:\t909 kB\n" ++ "VmPTE:\t40 kB\n" ++
   "VmSwap:\t7 kB\n" ++ "voluntary_ctxt_switches:\t42\n" ++
   "nonvoluntary_ctxt_switches:\t17\n").toList

def statusFileFull : List Char :=
  ("Name:\tcat\n" ++ "Pid:\t101\n" ++ "TracerPid:\t0\n" ++ "Uid:\t7\n" ++
   "Uid:\t1000\t1001\t1002\t1003\n" ++ "Gid:\t2000\t2001\t2002\t2003\n" ++
   "FDSize:\t64\n" ++ "VmPeak:\t901 kB\n" ++ "VmSize:\t902 kB\n" ++
   "VmLck:\t3 kB\n" ++ "VmHWM:\t904 kB\n" ++ "VmRSS:\t905 kB\n" ++
   "VmData:\t906 kB\n" ++ "VmStk:\t132 kB\n" ++ "VmExe:\t908 kB\n" ++
   "VmLib:\t909 kB\n" ++ "VmPTE:\t40 kB\n" ++ "VmSwap:\t7 kB\n" ++
   "voluntary_ctxt_switches:\t42\n" ++ "nonvoluntary_ctxt_switches:\t17\n").toList

/-- One `Sscanf` attempt of the `readStatus` loop: which scanner was
current, which line was read for it, and whether the match succeeded. -/
structure Attempt where
  scannerIdx : Nat
  line : List Char
  ok : Bool

/-- Discipline between consecutive attempts: the scanner index advances by
exactly one on a match and stays put on a failure. -/
def stepRel (a b : Attempt) : Prop :=
  b.scannerIdx = if a.ok then a.scannerIdx + 1 else a.scannerIdx

/-- The line loop of `readStatus` for scanner number `i`, instrumented to
record every `Sscanf` attempt it makes, in order. -/
def scanTraceInner (s : procStatusScanner) (i : Nat) :
    ProcStatus → List (List Char) → List Attempt × Option (ProcStatus × List (List Char))
  | _, [] => ([], none)
  | ps, l :: ls =>
    if matchOK s l then ([⟨i, l, true⟩], some (attemptWrite s ps l, ls))
    else (⟨i, l, false⟩ :: (scanTraceInner s i (attemptWrite s ps l) ls).1,
          (scanTraceInner s i (attemptWrite s ps l) ls).2)

/-- `readStatus`, instrumented to record the full sequence of `Sscanf`
attempts; its second component is exactly `readStatusAux`
(`readStatusTr_snd`). -/
def readStatusTr : List procStatusScanner → Nat → ProcStatus → List (List Char) →
    List Attempt × (ProcStatus × Option ParseError)
  | [], _, ps, _ => ([], (ps, none))
  | s :: ss, i, ps, ls =>
    match (scanTraceInner s i ps ls).2 with
    | none => ((scanTraceInner s i ps ls).1, (zeroStatus, some ParseError.readError))
    | some p =>
      ((scanTraceInner s i ps ls).1 ++ (readStatusTr ss (i + 1) p.1 p.2).1,
       (readStatusTr ss (i + 1) p.1 p.2).2)

/-- C3: for a statistics file containing the line `proc3 22` followed by 22
numbers, parsing produces an `NFSdv3Stats` record whose 22 named procedure
counters equal those 22 numbers in the declared field order, and whose
`Values` field equals 22.  (Token-level statement: the line's numeric tokens
after the `proc3` tag are `22` followed by the 22 numbers.) -/
theorem claim_C3_proc3_counters
    (n1 n2 n3 n4 n5 n6 n7 n8 n9 n10 n11 n12 n13 n14 n15 n16 n17 n18 n19 n20 n21 n22 : Nat) :
    parseProc3 (22 :: [n1, n2, n3, n4, n5, n6, n7, n8, n9, n10, n11,
      n12, n13, n14, n15, n16, n17, n18, n19, n20, n21, n22]) =
    some ⟨22, n1, n2, n3, n4, n5, n6, n7, n8, n9, n10, n11,
      n12, n13, n14, n15, n16, n17, n18, n19, n20, n21, n22⟩ := rfl

/-- C4: for a `proc4ops` line whose declared count `Values = 39` exceeds the
38 known NFSv4.0 operation fields, parsing succeeds without error: the 38
named fields are populated from the leading tokens and the excess trailing
token `n39` is ignored. -/
theorem claim_C4_proc4ops_excess_ignored
    (n1 n2 n3 n4 n5 n6 n7 n8 n9 n10 n11 n12 n13 n14 n15 n16 n17 n18 n19 n20
     n21 n22 n23 n24 n25 n26 n27 n28 n29 n30 n31 n32 n33 n34 n35 n36 n37 n38 n39 : Nat) :
    parseProc4ops (39 :: [n1, n2, n3, n4, n5, n6, n7, n8, n9, n10,
      n11, n12, n13, n14, n15, n16, n17, n18, n19, n20,
      n21, n22, n23, n24, n25, n26, n27, n28, n29, n30,
      n31, n32, n33, n34, n35, n36, n37, n38, n39]) =
    some ⟨39, n1, n2, n3, n4, n5, n6, n7, n8, n9, n10,
      n11, n12, n13, n14, n15, n16, n17, n18, n19, n20,
      n21, n22, n23, n24, n25, n26, n27, n28, n29, n30,
      n31, n32, n33, n34, n35, n36, n37, n38⟩ := rfl

/-- Whenever `readStatus` reports an error, the record handed back is the
zero record `ProcStatus{}` and the error is the propagated read error. -/
theorem readStatusAux_err : ∀ (ss : List procStatusScanner) (ps : ProcStatus)
    (ls : List (List Char)) (r : ProcStatus) (e : ParseError),
    readStatusAux ss ps ls = (r, some e) → r = zeroStatus ∧ e = ParseError.readError := by
  intro ss
  induction ss with
  | nil => intro ps ls r e h; simp [readStatusAux] at h
  | cons s ss ih =>
    intro ps ls r e h
    rw [readStatusAux] at h
    cases hm : scanUntilMatch s ps ls with
    | none => rw [hm] at h; simp at h; exact ⟨h.1.symm, h.2.symm⟩
    | some p => rw [hm] at h; exact ih p.1 p.2 r e h

/-- C7: every error a status parse reports to the caller is a typed failure
(`ParseError` separates the class "could not read input" from "input read
but did not match expected shape"), and the class reported is always
`readError`: format mismatches arise inside the match loop but are
swallowed there, so the caller can always tell the two classes apart. -/
theorem claim_C7_errors_typed (content : List Char) :
    (NewStatus content).2 = none ∨ (NewStatus content).2 = some ParseError.readError := by
  cases h2 : (NewStatus content).2 with
  | none => exact Or.inl rfl
  | some e =>
    right
    have h : readStatusAux statusScanners zeroStatus (splitLines content) =
        ((NewStatus content).1, some e) := by
      rw [← h2]
      rfl
    rw [(readStatusAux_err _ _ _ _ _ h).2]

/-- C8: parsing is deterministic across calls: two parses of the same
content yield identical records and outcomes, and each call runs on scanner
and record state built from scratch (`statusScanners`, `zeroStatus`) with
nothing shared between calls. -/
theorem claim_C8_deterministic (content : List Char) :
    (NewStatus content, NewStatus content).1 = (NewStatus content, NewStatus content).2 ∧
    NewStatus content = readStatusAux statusScanners zeroStatus (splitLines content) :=
  ⟨rfl, rfl⟩

/-- Unfolding: an exhausted format succeeds and leaves the input alone. -/
theorem scanf_nil (sp : Bool) (input : List Char) (acc : List Int) :
    scanf [] sp input acc = (acc, true) := rfl

/-- Unfolding: further format spaces of a satisfied run are skipped. -/
theorem scanf_space_sp (f : List Char) (input : List Char) (acc : List Int) :
    scanf (' ' :: f) true input acc = scanf f true input acc := by
  rw [scanf.eq_def]
  rfl

/-- Unfolding: a format space at the end of the input is satisfied. -/
theorem scanf_space_nil (f : List Char) (acc : List Int) :
    scanf (' ' :: f) false [] acc = scanf f true [] acc := by
  rw [scanf.eq_def]
  rfl

/-- Unfolding: a format space consumes a nonempty input space run. -/
theorem scanf_space_cons (f : List Char) (d : Char) (rest : List Char) (acc : List Int)
    (hd : isSpace d = true) :
    scanf (' ' :: f) false (d :: rest) acc =
      scanf f true ((d :: rest).dropWhile isSpace) acc := by
  rw [scanf.eq_def]
  simp [hd]

/-- Unfolding: a format space fails on a non-space input character. -/
theorem scanf_space_cons_no (f : List Char) (d : Char) (rest : List Char) (acc : List Int)
    (hd : isSpace d = false) :
    scanf (' ' :: f) false (d :: rest) acc = (acc, false) := by
  rw [scanf.eq_def]
  simp [hd]

/-- Unfolding: the `%d` directive. -/
theorem scanf_pct_d (f : List Char) (sp : Bool) (input : List Char) (acc : List Int) :
    scanf ('%' :: 'd' :: f) sp input acc =
      match scanDecimal (input.dropWhile isSpace) with
      | none => (acc, false)
      | some (v, rest) => scanf f false rest (acc ++ [v]) := by
  rw [scanf.eq_def]
  rfl

/-- Unfolding: a literal against exhausted input fails. -/
theorem scanf_lit_nil (c : Char) (f : List Char) (sp : Bool) (acc : List Int)
    (hc : ¬ c = ' ') (hp : ¬ c = '%') :
    scanf (c :: f) sp [] acc = (acc, false) := by
  rw [scanf.eq_def]
  simp [hc, hp]

/-- Unfolding: a literal consumes exactly its own character. -/
theorem scanf_lit_cons (c : Char) (f : List Char) (sp : Bool) (d : Char) (rest : List Char)
    (acc : List Int) (hc : ¬ c = ' ') (hp : ¬ c = '%') :
    scanf (c :: f) sp (d :: rest) acc =
      if d = c then scanf f false rest acc else (acc, false) := by
  rw [scanf.eq_def]
  simp [hc, hp]

/-- `countD` ignores format spaces. -/
theorem countD_space (f : List Char) : countD (' ' :: f) = countD f := by
  rw [countD.eq_def]
  rfl

/-- `countD` counts a `%d`. -/
theorem countD_pct_d (f : List Char) : countD ('%' :: 'd' :: f) = countD f + 1 := by
  rw [countD.eq_def]
  rfl

/-- `countD` ignores literals. -/
theorem countD_lit (c : Char) (f : List Char) (hp : ¬ c = '%') :
    countD (c :: f) = countD f := by
  rw [countD.eq_def]
  simp [hp]

/-- Unfolding: a bare `%` at the end of the format fails (Go: missing verb). -/
theorem scanf_pct_nil (sp : Bool) (input : List Char) (acc : List Int) :
    scanf ['%'] sp input acc = (acc, false) := by
  rw [scanf.eq_def]
  rfl

/-- Unfolding: a verb other than `%d` fails (never used by the table). -/
theorem scanf_pct_bad (g : Char) (f : List Char) (sp : Bool) (input : List Char)
    (acc : List Int) (hg : ¬ g = 'd') :
    scanf ('%' :: g :: f) sp input acc = (acc, false) := by
  rw [scanf.eq_def]
  simp [hg]

/-- A successful `Sscanf` assigns exactly one value per `%d` of its format
(bounded-length induction). -/
theorem scanf_true_length_aux : ∀ (n : Nat) (fmt : List Char), fmt.length ≤ n →
    ∀ (sp : Bool) (input : List Char) (acc out : List Int),
    scanf fmt sp input acc = (out, true) → out.length = acc.length + countD fmt := by
  intro n
  induction n with
  | zero =>
    intro fmt hlen sp input acc out h
    have hf : fmt = [] := List.length_eq_zero.mp (Nat.le_zero.mp hlen)
    subst hf
    rw [scanf_nil] at h
    injection h with h1 h2
    subst h1
    simp [countD]
  | succ n ih =>
    intro fmt hlen sp input acc out h
    cases fmt with
    | nil =>
      rw [scanf_nil] at h
      injection h with h1 h2
      subst h1
      simp [countD]
    | cons c f =>
      have hlen' : f.length ≤ n := by
        simpa using Nat.succ_le_succ_iff.mp (by simpa using hlen)
      by_cases hc : c = ' '
      · subst hc
        rw [countD_space]
        cases sp with
        | true =>
          rw [scanf_space_sp] at h
          exact ih f hlen' true input acc out h
        | false =>
          cases input with
          | nil =>
            rw [scanf_space_nil] at h
            exact ih f hlen' true [] acc out h
          | cons d rest =>
            cases hsp : isSpace d with
            | true =>
              rw [scanf_space_cons _ _ _ _ hsp] at h
              exact ih f hlen' true _ acc out h
            | false =>
              rw [scanf_space_cons_no _ _ _ _ hsp] at h
              injection h with h1 h2
              exact absurd h2 (by simp)
      · by_cases hp : c = '%'
        · subst hp
          cases f with
          | nil =>
            rw [scanf_pct_nil] at h
            injection h with h1 h2
            exact absurd h2 (by simp)
          | cons g f' =>
            by_cases hg : g = 'd'
            · subst hg
              rw [scanf_pct_d] at h
              cases hdec : scanDecimal (input.dropWhile isSpace) with
              | none =>
                rw [hdec] at h
                injection h with h1 h2
                exact absurd h2 (by simp)
              | some p =>
                rw [hdec] at h
                have hlen2 : f'.length ≤ n := by
                  have : f'.length + 2 ≤ n + 1 := by simpa using hlen
                  omega
                have := ih f' hlen2 false p.2 (acc ++ [p.1]) out h
                rw [countD_pct_d]
                simp at this
                omega
            · rw [scanf_pct_bad _ _ _ _ _ hg] at h
              injection h with h1 h2
              exact absurd h2 (by simp)
        · rw [countD_lit c f hp]
          cases input with
          | nil =>
            rw [scanf_lit_nil _ _ _ _ hc hp] at h
            injection h with h1 h2
            exact absurd h2 (by simp)
          | cons d rest =>
            rw [scanf_lit_cons _ _ _ _ _ _ hc hp] at h
            by_cases hdc : d = c
            · rw [if_pos hdc] at h
              exact ih f hlen' false rest acc out h
            · rw [if_neg hdc] at h
              injection h with h1 h2
              exact absurd h2 (by simp)

/-- A successful `Sscanf` assigns exactly one value per `%d` of its format. -/
theorem scanf_true_length (fmt : List Char) (sp : Bool) (input : List Char)
    (acc out : List Int) (h : scanf fmt sp input acc = (out, true)) :
    out.length = acc.length + countD fmt :=
  scanf_true_length_aux fmt.length fmt le_rfl sp input acc out h

/-- Any single-operand scanner whose operand is an overwriting field update
absorbs junk writes. -/
theorem absorbs_one (fmt : List Char) (g : ProcStatus → Int → ProcStatus)
    (hcount : countD fmt = 1)
    (hg : ∀ ps v w, g (g ps w) v = g ps v) :
    AbsorbsJunk ⟨fmt, [g]⟩ := by
  intro ps l junk hok
  have hok' : (scanf fmt false l []).2 = true := hok
  have hpr : scanf fmt false l [] = ((scanf fmt false l []).1, true) := by
    rw [← hok']
  have hlen := scanf_true_length fmt false l [] _ hpr
  rw [hcount] at hlen
  simp only [attemptWrite, matchOK] at *
  rcases hvs : (scanf fmt false l []).1 with _ | ⟨v, t⟩
  · rw [hvs] at hlen; simp at hlen
  · rcases t with _ | ⟨v2, t⟩
    · rcases hjs : (scanf fmt false junk []).1 with _ | ⟨w, u⟩
      · rfl
      · rcases u with _ | ⟨w2, u⟩
        · exact hg ps v w
        · exact hg ps v w
    · rw [hvs] at hlen; simp at hlen

/-- The four-operand `Uid:` scanner absorbs junk writes. -/
theorem uid_absorbs : AbsorbsJunk uidScanner := by
  intro ps l junk hok
  have hok' : (scanf uidScanner.format false l []).2 = true := hok
  have hpr : scanf uidScanner.format false l [] =
      ((scanf uidScanner.format false l []).1, true) := by
    rw [← hok']
  have hlen := scanf_true_length _ false l [] _ hpr
  have hc4 : countD uidScanner.format = 4 := by decide
  rw [hc4] at hlen
  simp only [attemptWrite] at *
  rcases hvs : (scanf uidScanner.format false l []).1 with
    _ | ⟨v1, _ | ⟨v2, _ | ⟨v3, _ | ⟨v4, _ | ⟨v5, t⟩⟩⟩⟩⟩
  · rw [hvs] at hlen; simp at hlen
  · rw [hvs] at hlen; simp at hlen
  · rw [hvs] at hlen; simp at hlen
  · rw [hvs] at hlen; simp at hlen
  · rcases hjs : (scanf uidScanner.format false junk []).1 with
      _ | ⟨w1, _ | ⟨w2, _ | ⟨w3, _ | ⟨w4, u⟩⟩⟩⟩ <;> rfl
  · rw [hvs] at hlen; simp at hlen

/-- The four-operand `Gid:` scanner absorbs junk writes. -/
theorem gid_absorbs : AbsorbsJunk gidScanner := by
  intro ps l junk hok
  have hok' : (scanf gidScanner.format false l []).2 = true := hok
  have hpr : scanf gidScanner.format false l [] =
      ((scanf gidScanner.format false l []).1, true) := by
    rw [← hok']
  have hlen := scanf_true_length _ false l [] _ hpr
  have hc4 : countD gidScanner.format = 4 := by decide
  rw [hc4] at hlen
  simp only [attemptWrite] at *
  rcases hvs : (scanf gidScanner.format false l []).1 with
    _ | ⟨v1, _ | ⟨v2, _ | ⟨v3, _ | ⟨v4, _ | ⟨v5, t⟩⟩⟩⟩⟩
  · rw [hvs] at hlen; simp at hlen
  · rw [hvs] at hlen; simp at hlen
  · rw [hvs] at hlen; simp at hlen
  · rw [hvs] at hlen; simp at hlen
  · rcases hjs : (scanf gidScanner.format false junk []).1 with
      _ | ⟨w1, _ | ⟨w2, _ | ⟨w3, _ | ⟨w4, u⟩⟩⟩⟩ <;> rfl
  · rw [hvs] at hlen; simp at hlen

/-- Every scanner in the table absorbs junk writes. -/
theorem statusScanners_absorb : ∀ s ∈ statusScanners, AbsorbsJunk s := by
  intro s hs
  simp only [statusScanners, List.mem_cons, List.not_mem_nil, or_false] at hs
  rcases hs with h | h | h | h | h | h | h | h | h | h | h | h | h | h | h | h | h | h <;>
    subst h
  · exact absorbs_one _ _ (by decide) (fun ps v w => rfl)
  · exact absorbs_one _ _ (by decide) (fun ps v w => rfl)
  · exact uid_absorbs
  · exact gid_absorbs
  · exact absorbs_one _ _ (by decide) (fun ps v w => rfl)
  · exact absorbs_one _ _ (by decide) (fun ps v w => rfl)
  · exact absorbs_one _ _ (by decide) (fun ps v w => rfl)
  · exact absorbs_one _ _ (by decide) (fun ps v w => rfl)
  · exact absorbs_one _ _ (by decide) (fun ps v w => rfl)
  · exact absorbs_one _ _ (by decide) (fun ps v w => rfl)
  · exact absorbs_one _ _ (by decide) (fun ps v w => rfl)
  · exact absorbs_one _ _ (by decide) (fun ps v w => rfl)
  · exact absorbs_one _ _ (by decide) (fun ps v w => rfl)
  · exact absorbs_one _ _ (by decide) (fun ps v w => rfl)
  · exact absorbs_one _ _ (by decide) (fun ps v w => rfl)
  · exact absorbs_one _ _ (by decide) (fun ps v w => rfl)
  · exact absorbs_one _ _ (by decide) (fun ps v w => rfl)
  · exact absorbs_one _ _ (by decide) (fun ps v w => rfl)

/-- Unfolding of the `readStatus` loop for a nonempty scanner list. -/
theorem readStatusAux_cons (s : procStatusScanner) (ss : List procStatusScanner)
    (ps : ProcStatus) (ls : List (List Char)) :
    readStatusAux (s :: ss) ps ls =
      match scanUntilMatch s ps ls with
      | none => (zeroStatus, some ParseError.readError)
      | some (ps', ls') => readStatusAux ss ps' ls' := by
  rw [readStatusAux.eq_def]

/-- Unfolding of the line loop for a nonempty stream. -/
theorem scanUntilMatch_cons (s : procStatusScanner) (ps : ProcStatus) (l : List Char)
    (ls : List (List Char)) :
    scanUntilMatch s ps (l :: ls) =
      if matchOK s l then some (attemptWrite s ps l, ls)
      else scanUntilMatch s (attemptWrite s ps l) ls := by
  rw [scanUntilMatch.eq_def]

/-- When the line loop finds a match, the stream decomposes into discarded
non-matching lines, the matching line, and the untouched remainder; the
record state reflects every attempt made. -/
theorem scanUntilMatch_some : ∀ (s : procStatusScanner) (ps ps' : ProcStatus)
    (ls rest : List (List Char)), scanUntilMatch s ps ls = some (ps', rest) →
    ∃ junk l, ls = junk ++ l :: rest ∧ (∀ j ∈ junk, matchOK s j = false) ∧
      matchOK s l = true ∧
      ps' = attemptWrite s (junk.foldl (attemptWrite s) ps) l := by
  intro s ps ps' ls
  induction ls generalizing ps with
  | nil => intro rest h; simp [scanUntilMatch] at h
  | cons l ls ih =>
    intro rest h
    rw [scanUntilMatch_cons] at h
    cases hm : matchOK s l with
    | true =>
      rw [hm, if_pos rfl] at h
      injection h with h1
      injection h1 with h2 h3
      refine ⟨[], l, by simp [h3], by simp, hm, by simp [h2]⟩
    | false =>
      rw [hm, if_neg (by simp)] at h
      obtain ⟨junk, l', hsplit, hfail, hokl, hps⟩ := ih (attemptWrite s ps l) rest h
      refine ⟨l :: junk, l', by simp [hsplit], ?_, hokl, by simp [hps]⟩
      intro j hj
      rcases List.mem_cons.mp hj with h | h
      · subst h; exact hm
      · exact hfail j h

/-- When `readStatus` returns without error, every scanner of the table
found some line of the stream that matches it. -/
theorem readStatusAux_ok_matched : ∀ (ss : List procStatusScanner) (ps : ProcStatus)
    (ls : List (List Char)) (r : ProcStatus),
    readStatusAux ss ps ls = (r, none) →
    ∀ s ∈ ss, ∃ l ∈ ls, matchOK s l = true := by
  intro ss
  induction ss with
  | nil => intro ps ls r h s hs; simp at hs
  | cons s0 ss ih =>
    intro ps ls r h s hs
    rw [readStatusAux_cons] at h
    cases hm : scanUntilMatch s0 ps ls with
    | none => rw [hm] at h; simp at h
    | some p =>
      rw [hm] at h
      obtain ⟨junk, l0, hsplit, hfail, hok, hps⟩ :=
        scanUntilMatch_some s0 ps p.1 ls p.2 (by rw [hm])
      rcases List.mem_cons.mp hs with hh | hh
      · subst hh
        exact ⟨l0, by simp [hsplit], hok⟩
      · obtain ⟨l, hl, hlok⟩ := ih p.1 p.2 r h s hh
        refine ⟨l, ?_, hlok⟩
        rw [hsplit]
        simp [List.mem_append]
        right
        right
        exact hl

/-- C5: a status file in which one required label is absent (no line of the
stream matches that scanner) makes the parse fail with the read /
end-of-stream error and the zero record; it never yields a success record
with that field silently zero. -/
theorem claim_C5_missing_label (content : List Char) (s : procStatusScanner)
    (hs : s ∈ statusScanners)
    (hmiss : ∀ l ∈ splitLines content, matchOK s l = false) :
    NewStatus content = (zeroStatus, some ParseError.readError) := by
  rcases he : (NewStatus content).2 with _ | e
  · exfalso
    have h : readStatusAux statusScanners zeroStatus (splitLines content) =
        ((NewStatus content).1, none) := by
      rw [← he]
      rfl
    obtain ⟨l, hl, hok⟩ := readStatusAux_ok_matched _ _ _ _ h s hs
    rw [hmiss l hl] at hok
    exact Bool.false_ne_true hok
  · have h : readStatusAux statusScanners zeroStatus (splitLines content) =
        ((NewStatus content).1, some e) := by
      rw [← he]
      rfl
    obtain ⟨h1, h2⟩ := readStatusAux_err _ _ _ _ _ h
    calc NewStatus content = ((NewStatus content).1, (NewStatus content).2) := rfl
    _ = (zeroStatus, some ParseError.readError) := by rw [he, h1, h2]

/-- A successful match absorbs the partial writes of any number of
preceding failed attempts against the same scanner. -/
theorem absorb_fold (s : procStatusScanner) (habs : AbsorbsJunk s) (l : List Char)
    (hok : matchOK s l = true) :
    ∀ (junk : List (List Char)) (ps : ProcStatus),
      attemptWrite s (junk.foldl (attemptWrite s) ps) l = attemptWrite s ps l := by
  intro junk
  induction junk with
  | nil => intro ps; rfl
  | cons j junk ih =>
    intro ps
    show attemptWrite s (junk.foldl (attemptWrite s) (attemptWrite s ps j)) l = _
    rw [ih (attemptWrite s ps j)]
    exact habs ps l j hok

/-- Any record `readStatus` returns without error is determined by the
matching lines alone: there is one matching line per scanner, each drawn
from the stream, and the record equals the clean assignment of their
extracted values; lines whose match failed contribute nothing. -/
theorem readStatusAux_ok_clean : ∀ (ss : List procStatusScanner) (ps : ProcStatus)
    (ls : List (List Char)) (r : ProcStatus),
    (∀ s ∈ ss, AbsorbsJunk s) → readStatusAux ss ps ls = (r, none) →
    ∃ ms, List.Forall₂ (fun s l => matchOK s l = true) ss ms ∧
      (∀ l ∈ ms, l ∈ ls) ∧ r = cleanWrites ss ms ps := by
  intro ss
  induction ss with
  | nil =>
    intro ps ls r _ h
    simp [readStatusAux] at h
    exact ⟨[], List.Forall₂.nil, by simp, by simp [cleanWrites, ← h]⟩
  | cons s0 ss ih =>
    intro ps ls r hab h
    rw [readStatusAux_cons] at h
    cases hm : scanUntilMatch s0 ps ls with
    | none => rw [hm] at h; simp at h
    | some p =>
      rw [hm] at h
      obtain ⟨junk, l0, hsplit, hfail, hok, hps⟩ :=
        scanUntilMatch_some s0 ps p.1 ls p.2 (by rw [hm])
      have hclean : p.1 = attemptWrite s0 ps l0 := by
        rw [hps]
        exact absorb_fold s0 (hab s0 (by simp)) l0 hok junk ps
      obtain ⟨ms, hfa, hmem, hr⟩ :=
        ih p.1 p.2 r (fun s hs => hab s (List.mem_cons_of_mem _ hs)) h
      refine ⟨l0 :: ms, List.Forall₂.cons hok hfa, ?_, ?_⟩
      · intro l hl
        rcases List.mem_cons.mp hl with hh | hh
        · subst hh; rw [hsplit]; simp
        · have := hmem l hh
          rw [hsplit]
          simp [List.mem_append]
          right; right
          exact this
      · show r = cleanWrites (s0 :: ss) (l0 :: ms) ps
        have : cleanWrites (s0 :: ss) (l0 :: ms) ps =
            cleanWrites ss ms (attemptWrite s0 ps l0) := rfl
        rw [this, ← hclean]
        exact hr

/-- C6: a failed match attempt never leaves its values in a record the
parser returns: every successfully returned record is exactly the clean
assignment of the values extracted from the 18 matching lines (one per
scanner, each a line of the stream); lines on which a scanner's match
failed — including ones that assigned a partial set of operands before
failing — contribute nothing to it.  (On error the parser returns the
zero record together with the error, see `readStatusAux_err`.) -/
theorem claim_C6_failed_match_no_effect (content : List Char) (r : ProcStatus)
    (h : NewStatus content = (r, none)) :
    ∃ ms, List.Forall₂ (fun s l => matchOK s l = true) statusScanners ms ∧
      (∀ l ∈ ms, l ∈ splitLines content) ∧ r = cleanWrites statusScanners ms zeroStatus :=
  readStatusAux_ok_clean statusScanners zeroStatus (splitLines content) r
    statusScanners_absorb h

/-- The line loop on a stream of failing lines followed by a matching one
consumes exactly through the matching line. -/
theorem scanUntilMatch_found (s : procStatusScanner) :
    ∀ (junk : List (List Char)) (ps : ProcStatus) (l : List Char) (rest : List (List Char)),
    (∀ j ∈ junk, matchOK s j = false) → matchOK s l = true →
    scanUntilMatch s ps (junk ++ l :: rest) =
      some (attemptWrite s (junk.foldl (attemptWrite s) ps) l, rest) := by
  intro junk
  induction junk with
  | nil =>
    intro ps l rest _ hl
    rw [List.nil_append, scanUntilMatch_cons, if_pos hl]
    rfl
  | cons j junk ih =>
    intro ps l rest hj hl
    rw [List.cons_append, scanUntilMatch_cons, if_neg (by simp [hj j (by simp)])]
    exact ih (attemptWrite s ps j) l rest (fun x hx => hj x (by simp [hx])) hl

/-- One scanner's step of `readStatus`: discard its failing lines, extract
from its matching line, continue with the remaining scanners on the
remaining stream. -/
theorem readStatus_step (s : procStatusScanner) (ss : List procStatusScanner)
    (ps : ProcStatus) (junk : List (List Char)) (l : List Char) (rest : List (List Char))
    (habs : AbsorbsJunk s) (hj : ∀ j ∈ junk, matchOK s j = false)
    (hl : matchOK s l = true) :
    readStatusAux (s :: ss) ps (junk ++ l :: rest) =
      readStatusAux ss (attemptWrite s ps l) rest := by
  rw [readStatusAux_cons, scanUntilMatch_found s junk ps l rest hj hl]
  rw [absorb_fold s habs l hl junk ps]

/-- C2 (amended): a well-formed status file containing the 18 required
labeled lines in kernel-canonical order — interleaved with arbitrary extra
lines, none of which matches the scanner pending where it appears — parses
successfully into the record whose fields are exactly the numeric values
carried by those 18 lines.  (The claim's count of 17 required lines is
corrected to 18, the length of the scanner table.) -/
theorem claim_C2_amended
    (pid tp u1 u2 u3 u4 g1 g2 g3 g4 fd pk sz lck hwm rss dat stk exe lib pte swp vol nvol : Int)
    (j1 j2 j3 j4 j5 j6 j7 j8 j9 j10 j11 j12 j13 j14 j15 j16 j17 j18 t : List (List Char))
    (m1 m2 m3 m4 m5 m6 m7 m8 m9 m10 m11 m12 m13 m14 m15 m16 m17 m18 : List Char)
    (hj1 : ∀ j ∈ j1, matchOK pidScanner j = false)
    (hm1 : scanf pidScanner.format false m1 [] = ([pid], true))
    (hj2 : ∀ j ∈ j2, matchOK tracerPidScanner j = false)
    (hm2 : scanf tracerPidScanner.format false m2 [] = ([tp], true))
    (hj3 : ∀ j ∈ j3, matchOK uidScanner j = false)
    (hm3 : scanf uidScanner.format false m3 [] = ([u1, u2, u3, u4], true))
    (hj4 : ∀ j ∈ j4, matchOK gidScanner j = false)
    (hm4 : scanf gidScanner.format false m4 [] = ([g1, g2, g3, g4], true))
    (hj5 : ∀ j ∈ j5, matchOK fdSizeScanner j = false)
    (hm5 : scanf fdSizeScanner.format false m5 [] = ([fd], true))
    (hj6 : ∀ j ∈ j6, matchOK vmPeakScanner j = false)
    (hm6 : scanf vmPeakScanner.format false m6 [] = ([pk], true))
    (hj7 : ∀ j ∈ j7, matchOK vmSizeScanner j = false)
    (hm7 : scanf vmSizeScanner.format false m7 [] = ([sz], true))
    (hj8 : ∀ j ∈ j8, matchOK vmLckScanner j = false)
    (hm8 : scanf vmLckScanner.format false m8 [] = ([lck], true))
    (hj9 : ∀ j ∈ j9, matchOK vmHWMScanner j = false)
    (hm9 : scanf vmHWMScanner.format false m9 [] = ([hwm], true))
    (hj10 : ∀ j ∈ j10, matchOK vmRSSScanner j = false)
    (hm10 : scanf vmRSSScanner.format false m10 [] = ([rss], true))
    (hj11 : ∀ j ∈ j11, matchOK vmDataScanner j = false)
    (hm11 : scanf vmDataScanner.format false m11 [] = ([dat], true))
    (hj12 : ∀ j ∈ j12, matchOK vmStkScanner j = false)
    (hm12 : scanf vmStkScanner.format false m12 [] = ([stk], true))
    (hj13 : ∀ j ∈ j13, matchOK vmExeScanner j = false)
    (hm13 : scanf vmExeScanner.format false m13 [] = ([exe], true))
    (hj14 : ∀ j ∈ j14, matchOK vmLibScanner j = false)
    (hm14 : scanf vmLibScanner.format false m14 [] = ([lib], true))
    (hj15 : ∀ j ∈ j15, matchOK vmPTEScanner j = false)
    (hm15 : scanf vmPTEScanner.format false m15 [] = ([pte], true))
    (hj16 : ∀ j ∈ j16, matchOK vmSwapScanner j = false)
    (hm16 : scanf vmSwapScanner.format false m16 [] = ([swp], true))
    (hj17 : ∀ j ∈ j17, matchOK voluntaryScanner j = false)
    (hm17 : scanf voluntaryScanner.format false m17 [] = ([vol], true))
    (hj18 : ∀ j ∈ j18, matchOK nonvoluntaryScanner j = false)
    (hm18 : scanf nonvoluntaryScanner.format false m18 [] = ([nvol], true)) :
    readStatus (j1 ++ m1 :: (j2 ++ m2 :: (j3 ++ m3 :: (j4 ++ m4 :: (j5 ++ m5 ::
      (j6 ++ m6 :: (j7 ++ m7 :: (j8 ++ m8 :: (j9 ++ m9 :: (j10 ++ m10 ::
      (j11 ++ m11 :: (j12 ++ m12 :: (j13 ++ m13 :: (j14 ++ m14 :: (j15 ++ m15 ::
      (j16 ++ m16 :: (j17 ++ m17 :: (j18 ++ m18 :: t)))))))))))))))))) =
    (⟨pid, tp, u1, u2, u3, u4, g1, g2, g3, g4, fd, pk, sz, lck, hwm, rss, dat,
      stk, exe, lib, pte, swp, vol, nvol⟩, none) := by
  simp only [readStatus, statusScanners]
  rw [readStatus_step pidScanner _ _ j1 m1 _
    (statusScanners_absorb pidScanner (by simp [statusScanners])) hj1
    (by simp [matchOK, hm1])]
  rw [readStatus_step tracerPidScanner _ _ j2 m2 _
    (statusScanners_absorb tracerPidScanner (by simp [statusScanners])) hj2
    (by simp [matchOK, hm2])]
  rw [readStatus_step uidScanner _ _ j3 m3 _
    (statusScanners_absorb uidScanner (by simp [statusScanners])) hj3
    (by simp [matchOK, hm3])]
  rw [readStatus_step gidScanner _ _ j4 m4 _
    (statusScanners_absorb gidScanner (by simp [statusScanners])) hj4
    (by simp [matchOK, hm4])]
  rw [readStatus_step fdSizeScanner _ _ j5 m5 _
    (statusScanners_absorb fdSizeScanner (by simp [statusScanners])) hj5
    (by simp [matchOK, hm5])]
  rw [readStatus_step vmPeakScanner _ _ j6 m6 _
    (statusScanners_absorb vmPeakScanner (by simp [statusScanners])) hj6
    (by simp [matchOK, hm6])]
  rw [readStatus_step vmSizeScanner _ _ j7 m7 _
    (statusScanners_absorb vmSizeScanner (by simp [statusScanners])) hj7
    (by simp [matchOK, hm7])]
  rw [readStatus_step vmLckScanner _ _ j8 m8 _
    (statusScanners_absorb vmLckScanner (by simp [statusScanners])) hj8
    (by simp [matchOK, hm8])]
  rw [readStatus_step vmHWMScanner _ _ j9 m9 _
    (statusScanners_absorb vmHWMScanner (by simp [statusScanners])) hj9
    (by simp [matchOK, hm9])]
  rw [readStatus_step vmRSSScanner _ _ j10 m10 _
    (statusScanners_absorb vmRSSScanner (by simp [statusScanners])) hj10
    (by simp [matchOK, hm10])]
  rw [readStatus_step vmDataScanner _ _ j11 m11 _
    (statusScanners_absorb vmDataScanner (by simp [statusScanners])) hj11
    (by simp [matchOK, hm11])]
  rw [readStatus_step vmStkScanner _ _ j12 m12 _
    (statusScanners_absorb vmStkScanner (by simp [statusScanners])) hj12
    (by simp [matchOK, hm12])]
  rw [readStatus_step vmExeScanner _ _ j13 m13 _
    (statusScanners_absorb vmExeScanner (by simp [statusScanners])) hj13
    (by simp [matchOK, hm13])]
  rw [readStatus_step vmLibScanner _ _ j14 m14 _
    (statusScanners_absorb vmLibScanner (by simp [statusScanners])) hj14
    (by simp [matchOK, hm14])]
  rw [readStatus_step vmPTEScanner _ _ j15 m15 _
    (statusScanners_absorb vmPTEScanner (by simp [statusScanners])) hj15
    (by simp [matchOK, hm15])]
  rw [readStatus_step vmSwapScanner _ _ j16 m16 _
    (statusScanners_absorb vmSwapScanner (by simp [statusScanners])) hj16
    (by simp [matchOK, hm16])]
  rw [readStatus_step voluntaryScanner _ _ j17 m17 _
    (statusScanners_absorb voluntaryScanner (by simp [statusScanners])) hj17
    (by simp [matchOK, hm17])]
  rw [readStatus_step nonvoluntaryScanner _ _ j18 m18 _
    (statusScanners_absorb nonvoluntaryScanner (by simp [statusScanners])) hj18
    (by simp [matchOK, hm18])]
  simp only [readStatusAux, attemptWrite, hm1, hm2, hm3, hm4, hm5, hm6, hm7, hm8,
    hm9, hm10, hm11, hm12, hm13, hm14, hm15, hm16, hm17, hm18, applyArgs]

/-- C2 (counterexample): the parser requires 18 labeled lines, not 17: the
scanner table has 18 entries, and a well-formed status file carrying 17
required labeled lines in kernel-canonical order (all but the last) does
not parse into a record — it fails with the read error. -/
theorem claim_C2_counterexample :
    statusScanners.length = 18 ∧
    NewStatus statusFile17 = (zeroStatus, some ParseError.readError) :=
  ⟨rfl, by decide⟩

/-- C2 (witness): the amended theorem applied to a concrete file with an
unrelated extra line, an extra line that partially matches the pending
scanner before failing, and trailing content after the last required
line. -/
theorem claim_C2_amended_witness :
    readStatus (["Name:\tcat\n".toList] ++ "Pid:\t101\n".toList ::
      ([] ++ "TracerPid:\t0\n".toList ::
      (["Uid:\t7\n".toList] ++ "Uid:\t1000\t1001\t1002\t1003\n".toList ::
      ([] ++ "Gid:\t2000\t2001\t2002\t2003\n".toList ::
      ([] ++ "FDSize:\t64\n".toList ::
      ([] ++ "VmPeak:\t901 kB\n".toList ::
      ([] ++ "VmSize:\t902 kB\n".toList ::
      ([] ++ "VmLck:\t3 kB\n".toList ::
      ([] ++ "VmHWM:\t904 kB\n".toList ::
      ([] ++ "VmRSS:\t905 kB\n".toList ::
      ([] ++ "VmData:\t906 kB\n".toList ::
      ([] ++ "VmStk:\t132 kB\n".toList ::
      ([] ++ "VmExe:\t908 kB\n".toList ::
      ([] ++ "VmLib:\t909 kB\n".toList ::
      ([] ++ "VmPTE:\t40 kB\n".toList ::
      ([] ++ "VmSwap:\t7 kB\n".toList ::
      ([] ++ "voluntary_ctxt_switches:\t42\n".toList ::
      ([] ++ "nonvoluntary_ctxt_switches:\t17\n".toList ::
        ["Threads:\t2\n".toList]))))))))))))))))))  =
    (⟨101, 0, 1000, 1001, 1002, 1003, 2000, 2001, 2002, 2003, 64, 901, 902, 3,
      904, 905, 906, 132, 908, 909, 40, 7, 42, 17⟩, none) :=
  claim_C2_amended _ _ _ _ _ _ _ _ _ _ _ _ _ _ _ _ _ _ _ _ _ _ _ _
    _ _ _ _ _ _ _ _ _ _ _ _ _ _ _ _ _ _ _
    _ _ _ _ _ _ _ _ _ _ _ _ _ _ _ _ _ _
    (by decide) (by decide) (by decide) (by decide) (by decide) (by decide)
    (by decide) (by decide) (by decide) (by decide) (by decide) (by decide)
    (by decide) (by decide) (by decide) (by decide) (by decide) (by decide)
    (by decide) (by decide) (by decide) (by decide) (by decide) (by decide)
    (by decide) (by decide) (by decide) (by decide) (by decide) (by decide)
    (by decide) (by decide) (by decide) (by decide) (by decide) (by decide)

theorem claim_C5_witness :
    NewStatus statusFileNoTracer = (zeroStatus, some ParseError.readError) :=
  claim_C5_missing_label statusFileNoTracer tracerPidScanner
    (by simp [statusScanners]) (by decide)

theorem claim_C6_witness :
    ∃ ms, List.Forall₂ (fun s l => matchOK s l = true) statusScanners ms ∧
      (∀ l ∈ ms, l ∈ splitLines statusFileFull) ∧
      (⟨101, 0, 1000, 1001, 1002, 1003, 2000, 2001, 2002, 2003, 64, 901, 902, 3,
        904, 905, 906, 132, 908, 909, 40, 7, 42, 17⟩ : ProcStatus) =
        cleanWrites statusScanners ms zeroStatus :=
  claim_C6_failed_match_no_effect statusFileFull _ (by decide)

/-- Unfolding: no line, no attempt. -/
theorem scanTraceInner_nil (s : procStatusScanner) (i : Nat) (ps : ProcStatus) :
    scanTraceInner s i ps [] = ([], none) := rfl

/-- Unfolding of the instrumented line loop. -/
theorem scanTraceInner_cons (s : procStatusScanner) (i : Nat) (ps : ProcStatus)
    (l : List Char) (ls : List (List Char)) :
    scanTraceInner s i ps (l :: ls) =
      if matchOK s l then ([⟨i, l, true⟩], some (attemptWrite s ps l, ls))
      else (⟨i, l, false⟩ :: (scanTraceInner s i (attemptWrite s ps l) ls).1,
            (scanTraceInner s i (attemptWrite s ps l) ls).2) := by
  rw [scanTraceInner.eq_def]

/-- Unfolding of the instrumented scanner loop. -/
theorem readStatusTr_cons (s : procStatusScanner) (ss : List procStatusScanner)
    (i : Nat) (ps : ProcStatus) (ls : List (List Char)) :
    readStatusTr (s :: ss) i ps ls =
      match (scanTraceInner s i ps ls).2 with
      | none => ((scanTraceInner s i ps ls).1, (zeroStatus, some ParseError.readError))
      | some p =>
        ((scanTraceInner s i ps ls).1 ++ (readStatusTr ss (i + 1) p.1 p.2).1,
         (readStatusTr ss (i + 1) p.1 p.2).2) := by
  rw [readStatusTr.eq_def]

/-- The instrumentation is faithful to the line loop. -/
theorem scanTraceInner_snd : ∀ (s : procStatusScanner) (i : Nat) (ps : ProcStatus)
    (ls : List (List Char)), (scanTraceInner s i ps ls).2 = scanUntilMatch s ps ls := by
  intro s i ps ls
  induction ls generalizing ps with
  | nil => rfl
  | cons l ls ih =>
    rw [scanTraceInner_cons, scanUntilMatch_cons]
    cases hm : matchOK s l with
    | true => simp [hm]
    | false => simp [hm, ih (attemptWrite s ps l)]

/-- The instrumentation is faithful to `readStatus`. -/
theorem readStatusTr_snd : ∀ (ss : List procStatusScanner) (i : Nat) (ps : ProcStatus)
    (ls : List (List Char)), (readStatusTr ss i ps ls).2 = readStatusAux ss ps ls := by
  intro ss
  induction ss with
  | nil => intro i ps ls; rfl
  | cons s ss ih =>
    intro i ps ls
    rw [readStatusTr_cons, readStatusAux_cons, ← scanTraceInner_snd s i ps ls]
    cases hm : (scanTraceInner s i ps ls).2 with
    | none => simp [hm]
    | some p => simp [hm, ih (i + 1) p.1 p.2]

/-- The lines attempted by one scanner are the successive stream lines. -/
theorem scanTraceInner_lines : ∀ (s : procStatusScanner) (i : Nat) (ps : ProcStatus)
    (ls : List (List Char)),
    ((scanTraceInner s i ps ls).1).map Attempt.line =
      ls.take ((scanTraceInner s i ps ls).1).length := by
  intro s i ps ls
  induction ls generalizing ps with
  | nil => rfl
  | cons l ls ih =>
    rw [scanTraceInner_cons]
    cases hm : matchOK s l with
    | true => simp [hm]
    | false => simp [hm, ih (attemptWrite s ps l)]

/-- Every attempt of the line loop is by the current scanner, and its
recorded outcome is the actual `Sscanf` outcome on its line. -/
theorem scanTraceInner_mem : ∀ (s : procStatusScanner) (i : Nat) (ps : ProcStatus)
    (ls : List (List Char)) (a : Attempt), a ∈ (scanTraceInner s i ps ls).1 →
    a.scannerIdx = i ∧ a.ok = matchOK s a.line := by
  intro s i ps ls
  induction ls generalizing ps with
  | nil => intro a ha; simp [scanTraceInner_nil] at ha
  | cons l ls ih =>
    intro a ha
    rw [scanTraceInner_cons] at ha
    cases hm : matchOK s l with
    | true =>
      rw [hm] at ha
      simp at ha
      subst ha
      exact ⟨rfl, hm.symm⟩
    | false =>
      rw [hm] at ha
      simp at ha
      rcases ha with h | h
      · subst h
        exact ⟨rfl, hm.symm⟩
      · exact ih (attemptWrite s ps l) a h

/-- Within one scanner's line loop the step discipline holds. -/
theorem scanTraceInner_chain : ∀ (s : procStatusScanner) (i : Nat) (ps : ProcStatus)
    (ls : List (List Char)), List.Chain' stepRel (scanTraceInner s i ps ls).1 := by
  intro s i ps ls
  induction ls generalizing ps with
  | nil => rw [scanTraceInner_nil]; simp
  | cons l ls ih =>
    rw [scanTraceInner_cons]
    by_cases hm : matchOK s l = true
    · rw [if_pos hm]
      simp
    · rw [if_neg hm]
      show List.Chain' stepRel (Attempt.mk i l false :: (scanTraceInner s i (attemptWrite s ps l) ls).1)
      rw [List.chain'_cons']
      refine ⟨?_, ih (attemptWrite s ps l)⟩
      intro b hb
      have hbmem : b ∈ (scanTraceInner s i (attemptWrite s ps l) ls).1 :=
        List.mem_of_mem_head? hb
      have := (scanTraceInner_mem s i (attemptWrite s ps l) ls b hbmem).1
      simp [stepRel, this]

/-- An empty trace means the stream was exhausted. -/
theorem scanTraceInner_empty_none : ∀ (s : procStatusScanner) (i : Nat) (ps : ProcStatus)
    (ls : List (List Char)), (scanTraceInner s i ps ls).1 = [] →
    (scanTraceInner s i ps ls).2 = none := by
  intro s i ps ls h
  cases ls with
  | nil => rfl
  | cons l ls =>
    rw [scanTraceInner_cons] at h
    by_cases hm : matchOK s l = true
    · rw [if_pos hm] at h
      simp at h
    · rw [if_neg hm] at h
      simp at h

/-- When the line loop succeeds, its last attempt is the match. -/
theorem scanTraceInner_last : ∀ (s : procStatusScanner) (i : Nat) (ps : ProcStatus)
    (ls : List (List Char)) (p : ProcStatus × List (List Char)),
    (scanTraceInner s i ps ls).2 = some p →
    ∃ l, ((scanTraceInner s i ps ls).1).getLast? = some ⟨i, l, true⟩ := by
  intro s i ps ls
  induction ls generalizing ps with
  | nil => intro p h; simp [scanTraceInner_nil] at h
  | cons l ls ih =>
    intro p h
    rw [scanTraceInner_cons] at h ⊢
    by_cases hm : matchOK s l = true
    · rw [if_pos hm]
      exact ⟨l, by simp⟩
    · rw [if_neg hm] at h ⊢
      have h2 : (scanTraceInner s i (attemptWrite s ps l) ls).2 = some p := h
      obtain ⟨l2, hl2⟩ := ih (attemptWrite s ps l) p h2
      have hne : (scanTraceInner s i (attemptWrite s ps l) ls).1 ≠ [] := by
        intro hemp
        rw [scanTraceInner_empty_none s i (attemptWrite s ps l) ls hemp] at h2
        exact Option.noConfusion h2
      refine ⟨l2, ?_⟩
      show (Attempt.mk i l false :: (scanTraceInner s i (attemptWrite s ps l) ls).1).getLast? =
        some (Attempt.mk i l2 true)
      rcases hx : (scanTraceInner s i (attemptWrite s ps l) ls).1 with _ | ⟨b, bs⟩
      · exact absurd hx hne
      · rw [hx] at hl2
        rw [List.getLast?_cons_cons]
        exact hl2

/-- When the line loop succeeds, the remaining stream is exactly the part
after the lines it consumed. -/
theorem scanTraceInner_drop : ∀ (s : procStatusScanner) (i : Nat) (ps : ProcStatus)
    (ls : List (List Char)) (p : ProcStatus × List (List Char)),
    (scanTraceInner s i ps ls).2 = some p →
    p.2 = ls.drop ((scanTraceInner s i ps ls).1).length := by
  intro s i ps ls
  induction ls generalizing ps with
  | nil => intro p h; simp [scanTraceInner_nil] at h
  | cons l ls ih =>
    intro p h
    rw [scanTraceInner_cons] at h ⊢
    by_cases hm : matchOK s l = true
    · rw [if_pos hm] at h ⊢
      have h2 : some (attemptWrite s ps l, ls) = some p := h
      rw [← Option.some.inj h2]
      simp
    · rw [if_neg hm] at h ⊢
      have h2 : (scanTraceInner s i (attemptWrite s ps l) ls).2 = some p := h
      have := ih (attemptWrite s ps l) p h2
      show p.2 = (l :: ls).drop
        (Attempt.mk i l false :: (scanTraceInner s i (attemptWrite s ps l) ls).1).length
      simp [this]

/-- The full attempt sequence reads the stream's lines in order, one
attempt per line, never looking ahead or re-reading. -/
theorem readStatusTr_lines : ∀ (ss : List procStatusScanner) (i : Nat) (ps : ProcStatus)
    (ls : List (List Char)),
    ((readStatusTr ss i ps ls).1).map Attempt.line =
      ls.take ((readStatusTr ss i ps ls).1).length := by
  intro ss
  induction ss with
  | nil => intro i ps ls; rfl
  | cons s ss ih =>
    intro i ps ls
    rw [readStatusTr_cons]
    cases hsnd : (scanTraceInner s i ps ls).2 with
    | none => exact scanTraceInner_lines s i ps ls
    | some p =>
      have h1 := scanTraceInner_lines s i ps ls
      have h2 := ih (i + 1) p.1 p.2
      have hdrop := scanTraceInner_drop s i ps ls p hsnd
      show ((scanTraceInner s i ps ls).1 ++ (readStatusTr ss (i + 1) p.1 p.2).1).map
          Attempt.line =
        ls.take ((scanTraceInner s i ps ls).1 ++ (readStatusTr ss (i + 1) p.1 p.2).1).length
      rw [List.map_append, List.length_append, h1, h2, hdrop, List.take_add]

/-- Every attempt is made by the scanner the trace says, and that scanner
exists at that index of the table. -/
theorem readStatusTr_mem : ∀ (ss : List procStatusScanner) (i : Nat) (ps : ProcStatus)
    (ls : List (List Char)) (a : Attempt), a ∈ (readStatusTr ss i ps ls).1 →
    ∃ j s', a.scannerIdx = i + j ∧ ss[j]? = some s' ∧ a.ok = matchOK s' a.line := by
  intro ss
  induction ss with
  | nil => intro i ps ls a ha; simp [readStatusTr] at ha
  | cons s ss ih =>
    intro i ps ls a ha
    rw [readStatusTr_cons] at ha
    cases hsnd : (scanTraceInner s i ps ls).2 with
    | none =>
      rw [hsnd] at ha
      have hm := scanTraceInner_mem s i ps ls a ha
      exact ⟨0, s, by simp [hm.1], by simp, hm.2⟩
    | some p =>
      rw [hsnd] at ha
      have ha2 : a ∈ (scanTraceInner s i ps ls).1 ++ (readStatusTr ss (i + 1) p.1 p.2).1 := ha
      rcases List.mem_append.mp ha2 with hh | hh
      · have hm := scanTraceInner_mem s i ps ls a hh
        exact ⟨0, s, by simp [hm.1], by simp, hm.2⟩
      · obtain ⟨j, s', hj, hg, hok⟩ := ih (i + 1) p.1 p.2 a hh
        exact ⟨j + 1, s', by omega, by simpa using hg, hok⟩

/-- The first attempt of the loop over a scanner suffix is by its first
scanner. -/
theorem readStatusTr_head : ∀ (ss : List procStatusScanner) (i : Nat) (ps : ProcStatus)
    (ls : List (List Char)) (a : Attempt),
    (readStatusTr ss i ps ls).1.head? = some a → a.scannerIdx = i := by
  intro ss
  cases ss with
  | nil => intro i ps ls a ha; simp [readStatusTr] at ha
  | cons s ss =>
    intro i ps ls a ha
    rw [readStatusTr_cons] at ha
    cases hsnd : (scanTraceInner s i ps ls).2 with
    | none =>
      rw [hsnd] at ha
      have hmem : a ∈ (scanTraceInner s i ps ls).1 := List.mem_of_mem_head? ha
      exact (scanTraceInner_mem s i ps ls a hmem).1
    | some p =>
      rw [hsnd] at ha
      have ha2 : ((scanTraceInner s i ps ls).1 ++
          (readStatusTr ss (i + 1) p.1 p.2).1).head? = some a := ha
      have hne : (scanTraceInner s i ps ls).1 ≠ [] := by
        intro hemp
        rw [scanTraceInner_empty_none s i ps ls hemp] at hsnd
        exact Option.noConfusion hsnd
      rcases hx : (scanTraceInner s i ps ls).1 with _ | ⟨b, bs⟩
      · exact absurd hx hne
      · rw [hx] at ha2
        simp at ha2
        have hbmem : a ∈ (scanTraceInner s i ps ls).1 := by
          rw [hx, ← ha2]
          simp
        exact (scanTraceInner_mem s i ps ls a hbmem).1

/-- Across the whole run the step discipline holds: the scanner index
never decreases, never skips, and advances exactly on a match. -/
theorem readStatusTr_chain : ∀ (ss : List procStatusScanner) (i : Nat) (ps : ProcStatus)
    (ls : List (List Char)), List.Chain' stepRel (readStatusTr ss i ps ls).1 := by
  intro ss
  induction ss with
  | nil => intro i ps ls; simp [readStatusTr]
  | cons s ss ih =>
    intro i ps ls
    rw [readStatusTr_cons]
    cases hsnd : (scanTraceInner s i ps ls).2 with
    | none => exact scanTraceInner_chain s i ps ls
    | some p =>
      show List.Chain' stepRel
        ((scanTraceInner s i ps ls).1 ++ (readStatusTr ss (i + 1) p.1 p.2).1)
      rw [List.chain'_append]
      refine ⟨scanTraceInner_chain s i ps ls, ih (i + 1) p.1 p.2, ?_⟩
      intro x hx y hy
      obtain ⟨l2, hl2⟩ := scanTraceInner_last s i ps ls p hsnd
      rw [hl2] at hx
      have hxx : x = Attempt.mk i l2 true := by
        injection hx with h
        exact h.symm
      have hy2 := readStatusTr_head ss (i + 1) p.1 p.2 y hy
      subst hxx
      simp [stepRel, hy2]

/-- C1: `readStatus` processes its scanners strictly in sequence.  The
attempt trace of the (faithful, see first conjunct) instrumented parser
reads exactly the successive lines of the stream in order (second
conjunct: one attempt per consumed line, so no lookahead and no re-reading
of a discarded line), starts at scanner 0 (fourth conjunct), advances by
exactly one scanner on a match and stays on failure — hence never returns
to an earlier scanner (third conjunct) — and every attempt is made against the
scanner at the recorded table index with the recorded outcome (fifth
conjunct). -/
theorem claim_C1_sequential (ls : List (List Char)) :
    (readStatusTr statusScanners 0 zeroStatus ls).2 = readStatus ls ∧
    ((readStatusTr statusScanners 0 zeroStatus ls).1).map Attempt.line =
      ls.take ((readStatusTr statusScanners 0 zeroStatus ls).1).length ∧
    List.Chain' stepRel (readStatusTr statusScanners 0 zeroStatus ls).1 ∧
    (∀ a, ((readStatusTr statusScanners 0 zeroStatus ls).1).head? = some a →
      a.scannerIdx = 0) ∧
    (∀ a ∈ (readStatusTr statusScanners 0 zeroStatus ls).1,
      ∃ s, statusScanners[a.scannerIdx]? = some s ∧ a.ok = matchOK s a.line) := by
  refine ⟨readStatusTr_snd statusScanners 0 zeroStatus ls,
    readStatusTr_lines statusScanners 0 zeroStatus ls,
    readStatusTr_chain statusScanners 0 zeroStatus ls,
    fun a ha => readStatusTr_head statusScanners 0 zeroStatus ls a ha,
    fun a ha => ?_⟩
  obtain ⟨j, s, hj, hg, hok⟩ := readStatusTr_mem statusScanners 0 zeroStatus ls a ha
  refine ⟨s, ?_, hok⟩
  rw [hj]
  simpa using hg

/-- If `Sscanf` succeeds with the input exhausted, nothing was assigned and
the remaining format was only spaces (a space run is satisfied by the end
of the input). -/
theorem scanf_nil_input : ∀ (fmt : List Char) (sp : Bool) (acc out : List Int),
    scanf fmt sp [] acc = (out, true) → out = acc ∧ ∀ c ∈ fmt, c = ' ' := by
  intro fmt
  induction fmt with
  | nil =>
    intro sp acc out h
    rw [scanf_nil] at h
    injection h with h1 h2
    exact ⟨h1.symm, by simp⟩
  | cons c f ih =>
    intro sp acc out h
    by_cases hc : c = ' '
    · subst hc
      have h2 : scanf f true [] acc = (out, true) := by
        cases sp with
        | true => rw [scanf_space_sp] at h; exact h
        | false => rw [scanf_space_nil] at h; exact h
      obtain ⟨ho, hall⟩ := ih true acc out h2
      refine ⟨ho, ?_⟩
      intro x hx
      rcases List.mem_cons.mp hx with hh | hh
      · exact hh
      · exact hall x hh
    · by_cases hp : c = '%'
      · subst hp
        cases f with
        | nil =>
          rw [scanf_pct_nil] at h
          injection h with h1 h2
          exact absurd h2 (by simp)
        | cons g f' =>
          by_cases hg : g = 'd'
          · subst hg
            rw [scanf_pct_d] at h
            have : scanDecimal (List.dropWhile isSpace []) = none := rfl
            rw [this] at h
            injection h with h1 h2
            exact absurd h2 (by simp)
          · rw [scanf_pct_bad _ _ _ _ _ hg] at h
            injection h with h1 h2
            exact absurd h2 (by simp)
      · rw [scanf_lit_nil _ _ _ _ hc hp] at h
        injection h with h1 h2
        exact absurd h2 (by simp)

/-- An all-spaces format whose space requirement is already satisfied
succeeds on any input without assigning anything. -/
theorem scanf_all_spaces : ∀ (fmt : List Char), (∀ c ∈ fmt, c = ' ') →
    ∀ (input : List Char) (acc : List Int), scanf fmt true input acc = (acc, true) := by
  intro fmt
  induction fmt with
  | nil => intro _ input acc; rw [scanf_nil]
  | cons c f ih =>
    intro hall input acc
    have hc : c = ' ' := hall c (by simp)
    subst hc
    rw [scanf_space_sp]
    exact ih (fun x hx => hall x (by simp [hx])) input acc

/-- `takeWhile` is unchanged by appending input behind a failing character. -/
theorem takeWhile_append_stop (p : Char → Bool) (c : Char) (hc : p c = false) :
    ∀ (xs e : List Char), (xs ++ c :: e).takeWhile p = xs.takeWhile p := by
  intro xs e
  induction xs with
  | nil => simp [List.takeWhile, hc]
  | cons x xs ih =>
    rw [List.cons_append]
    cases hx : p x with
    | true => simp [List.takeWhile_cons, hx, ih]
    | false => simp [List.takeWhile_cons, hx]

/-- `dropWhile` pushes through an append behind a failing character. -/
theorem dropWhile_append_stop (p : Char → Bool) (c : Char) (hc : p c = false) :
    ∀ (xs e : List Char), (xs ++ c :: e).dropWhile p = xs.dropWhile p ++ c :: e := by
  intro xs e
  induction xs with
  | nil => simp [List.dropWhile, hc]
  | cons x xs ih =>
    rw [List.cons_append]
    cases hx : p x with
    | true => simp [List.dropWhile_cons, hx, ih]
    | false => simp [List.dropWhile_cons, hx]

/-- `dropWhile` pushes through an append when it already stops inside the
first part. -/
theorem dropWhile_append_of_ne_nil (p : Char → Bool) :
    ∀ (xs ys : List Char), xs.dropWhile p ≠ [] →
    (xs ++ ys).dropWhile p = xs.dropWhile p ++ ys := by
  intro xs ys
  induction xs with
  | nil => intro h; exact absurd rfl h
  | cons x xs ih =>
    intro h
    rw [List.cons_append]
    cases hx : p x with
    | true =>
      rw [List.dropWhile_cons_of_pos (by simp [hx])] at h ⊢
      rw [List.dropWhile_cons_of_pos (by simp [hx])]
      exact ih h
    | false =>
      rw [List.dropWhile_cons_of_neg (by simp [hx])]
      rw [List.dropWhile_cons_of_neg (by simp [hx])]
      simp

/-- Maximal-munch digit reading is unchanged by appending a space and more
characters: the space ends the digit run exactly where it ended before. -/
theorem scanUnsigned_append (xs e : List Char) (n : Nat) (r : List Char)
    (h : scanUnsigned xs = some (n, r)) :
    scanUnsigned (xs ++ ' ' :: e) = some (n, r ++ ' ' :: e) := by
  rw [scanUnsigned.eq_def] at h ⊢
  rw [takeWhile_append_stop Char.isDigit ' ' (by decide) xs e]
  rw [dropWhile_append_stop Char.isDigit ' ' (by decide) xs e]
  cases hts : xs.takeWhile Char.isDigit with
  | nil => rw [hts] at h; simp at h
  | cons d ds =>
    rw [hts] at h
    simp at h ⊢
    exact ⟨h.1, by rw [h.2]⟩

/-- `%d` reads the same value when a space and further characters are
appended to the input. -/
theorem scanDecimal_append (xs e : List Char) (v : Int) (r : List Char)
    (h : scanDecimal xs = some (v, r)) :
    scanDecimal (xs ++ ' ' :: e) = some (v, r ++ ' ' :: e) := by
  cases xs with
  | nil =>
    rw [show scanDecimal [] = none from rfl] at h
    exact Option.noConfusion h
  | cons x rest =>
    by_cases hminus : x = '-'
    · subst hminus
      rw [show scanDecimal ('-' :: rest) =
        (scanUnsigned rest).map (fun p => (-(p.1 : Int), p.2)) from rfl] at h
      rw [List.cons_append]
      rw [show scanDecimal ('-' :: (rest ++ ' ' :: e)) =
        (scanUnsigned (rest ++ ' ' :: e)).map (fun p => (-(p.1 : Int), p.2)) from rfl]
      cases hu : scanUnsigned rest with
      | none => rw [hu] at h; simp at h
      | some q =>
        rw [hu] at h
        simp at h
        rw [scanUnsigned_append rest e q.1 q.2 (by rw [hu])]
        simp [← h.1, ← h.2]
    · by_cases hplus : x = '+'
      · subst hplus
        rw [show scanDecimal ('+' :: rest) =
          (scanUnsigned rest).map (fun p => ((p.1 : Int), p.2)) from rfl] at h
        rw [List.cons_append]
        rw [show scanDecimal ('+' :: (rest ++ ' ' :: e)) =
          (scanUnsigned (rest ++ ' ' :: e)).map (fun p => ((p.1 : Int), p.2)) from rfl]
        cases hu : scanUnsigned rest with
        | none => rw [hu] at h; simp at h
        | some q =>
          rw [hu] at h
          simp at h
          rw [scanUnsigned_append rest e q.1 q.2 (by rw [hu])]
          simp [← h.1, ← h.2]
      · have hx : scanDecimal (x :: rest) =
            (scanUnsigned (x :: rest)).map (fun p => ((p.1 : Int), p.2)) := by
          rw [scanDecimal.eq_def]
          simp [hminus, hplus]
        have hx2 : scanDecimal (x :: rest ++ ' ' :: e) =
            (scanUnsigned (x :: rest ++ ' ' :: e)).map (fun p => ((p.1 : Int), p.2)) := by
          rw [scanDecimal.eq_def]
          simp [hminus, hplus]
        rw [hx] at h
        rw [hx2]
        cases hu : scanUnsigned (x :: rest) with
        | none => rw [hu] at h; simp at h
        | some q =>
          rw [hu] at h
          simp at h
          rw [show x :: rest ++ ' ' :: e = (x :: rest) ++ ' ' :: e from rfl,
            scanUnsigned_append (x :: rest) e q.1 q.2 (by rw [hu])]
          simp [← h.1, ← h.2]

/-- A successful `Sscanf` match is preserved, with the same assigned
values, when a space and arbitrary further characters are appended to the
input: matching is anchored at the start and stops when the format is
exhausted, so trailing input is never examined (bounded-length
induction). -/
theorem scanf_append_aux : ∀ (n : Nat) (fmt : List Char), fmt.length ≤ n →
    ∀ (sp : Bool) (input : List Char) (acc out : List Int) (extra : List Char),
    scanf fmt sp input acc = (out, true) →
    scanf fmt sp (input ++ ' ' :: extra) acc = (out, true) := by
  intro n
  induction n with
  | zero =>
    intro fmt hlen sp input acc out extra h
    have hf : fmt = [] := List.length_eq_zero.mp (Nat.le_zero.mp hlen)
    subst hf
    rw [scanf_nil] at h ⊢
    exact h
  | succ n ih =>
    intro fmt hlen sp input acc out extra h
    cases fmt with
    | nil =>
      rw [scanf_nil] at h ⊢
      exact h
    | cons c f =>
      have hlen' : f.length ≤ n := by
        simpa using Nat.succ_le_succ_iff.mp (by simpa using hlen)
      by_cases hc : c = ' '
      · subst hc
        cases sp with
        | true =>
          rw [scanf_space_sp] at h ⊢
          exact ih f hlen' true input acc out extra h
        | false =>
          cases input with
          | nil =>
            rw [scanf_space_nil] at h
            obtain ⟨ho, hall⟩ := scanf_nil_input f true acc out h
            rw [List.nil_append,
              scanf_space_cons f ' ' extra acc (by decide)]
            rw [scanf_all_spaces f hall _ acc, ho]
          | cons d rest =>
            cases hsp : isSpace d with
            | false =>
              rw [scanf_space_cons_no _ _ _ _ hsp] at h
              injection h with h1 h2
              exact absurd h2 (by simp)
            | true =>
              rw [scanf_space_cons _ _ _ _ hsp] at h
              rw [List.cons_append, scanf_space_cons f d (rest ++ ' ' :: extra) acc hsp]
              cases hdw : (d :: rest).dropWhile isSpace with
              | nil =>
                rw [hdw] at h
                obtain ⟨ho, hall⟩ := scanf_nil_input f true acc out h
                rw [scanf_all_spaces f hall _ acc, ho]
              | cons y ys =>
                have hne : (d :: rest).dropWhile isSpace ≠ [] := by rw [hdw]; simp
                rw [show (d :: (rest ++ ' ' :: extra)) = (d :: rest) ++ ' ' :: extra from rfl,
                  dropWhile_append_of_ne_nil isSpace (d :: rest) (' ' :: extra) hne]
                exact ih f hlen' true _ acc out extra h
      · by_cases hp : c = '%'
        · subst hp
          cases f with
          | nil =>
            rw [scanf_pct_nil] at h
            injection h with h1 h2
            exact absurd h2 (by simp)
          | cons g f' =>
            by_cases hg : g = 'd'
            · subst hg
              rw [scanf_pct_d] at h
              rw [scanf_pct_d]
              cases hdec : scanDecimal (input.dropWhile isSpace) with
              | none =>
                rw [hdec] at h
                injection h with h1 h2
                exact absurd h2 (by simp)
              | some q =>
                rw [hdec] at h
                have hlen2 : f'.length ≤ n := by
                  have : f'.length + 2 ≤ n + 1 := by simpa using hlen
                  omega
                have hne : input.dropWhile isSpace ≠ [] := by
                  intro hemp
                  rw [hemp] at hdec
                  exact Option.noConfusion hdec
                rw [dropWhile_append_of_ne_nil isSpace input (' ' :: extra) hne]
                rw [scanDecimal_append _ extra q.1 q.2 (by rw [hdec])]
                exact ih f' hlen2 false (q.2) (acc ++ [q.1]) out extra h
            · rw [scanf_pct_bad _ _ _ _ _ hg] at h
              injection h with h1 h2
              exact absurd h2 (by simp)
        · cases input with
          | nil =>
            rw [scanf_lit_nil _ _ _ _ hc hp] at h
            injection h with h1 h2
            exact absurd h2 (by simp)
          | cons d rest =>
            rw [scanf_lit_cons _ _ _ _ _ _ hc hp] at h
            rw [List.cons_append, scanf_lit_cons _ _ _ _ _ _ hc hp]
            by_cases hdc : d = c
            · rw [if_pos hdc] at h ⊢
              exact ih f hlen' false rest acc out extra h
            · rw [if_neg hdc] at h
              injection h with h1 h2
              exact absurd h2 (by simp)

/-- A successful `Sscanf` match is preserved, with the same values, under
appending a space and arbitrary extra characters. -/
theorem scanf_append_extra (fmt : List Char) (sp : Bool) (input : List Char)
    (acc out : List Int) (extra : List Char)
    (h : scanf fmt sp input acc = (out, true)) :
    scanf fmt sp (input ++ ' ' :: extra) acc = (out, true) :=
  scanf_append_aux fmt.length fmt le_rfl sp input acc out extra h

/-- C9: a line that begins with a scanner's expected label and typed
values still matches that scanner when extra tokens follow on the same
line, and the extracted values are unchanged: matching is a prefix match
of the template against the line, not a whole-line match. -/
theorem claim_C9_prefix_match (s : procStatusScanner) (_hs : s ∈ statusScanners)
    (l extra : List Char) (vals : List Int)
    (h : scanf s.format false l [] = (vals, true)) :
    scanf s.format false (l ++ ' ' :: extra) [] = (vals, true) :=
  scanf_append_extra s.format false l [] vals extra h

/-- C9 (witness): `Pid: 123 extra` still matches the `Pid:` scanner and
yields 123. -/
theorem claim_C9_witness :
    scanf pidScanner.format false ("Pid: 123".toList ++ ' ' :: "extra\n".toList) [] =
      ([123], true) :=
  claim_C9_prefix_match pidScanner (by simp [statusScanners]) "Pid: 123".toList
    "extra\n".toList [123] (by decide)

/-- `splitLines` peels one complete (newline-free) line off the front. -/
theorem splitLinesAux_line (rest : List Char) :
    ∀ (body acc : List Char), '\n' ∉ body →
    splitLinesAux (body ++ '\n' :: rest) acc =
      ((acc ++ body) ++ ['\n']) :: splitLinesAux rest [] := by
  intro body
  induction body with
  | nil =>
    intro acc _
    rw [List.nil_append, splitLinesAux.eq_def]
    simp
  | cons c body ih =>
    intro acc hnl
    have hc : ¬ c = '\n' := by
      intro hcc
      exact hnl (by simp [hcc])
    rw [List.cons_append, splitLinesAux.eq_def]
    simp only [if_neg hc]
    rw [ih (acc ++ [c]) (fun hx => hnl (by simp [hx]))]
    simp

/-- Content with no newline yields no complete line: `ReadString`
returns its partial data only together with the read error, and
`readStatus` discards it. -/
theorem splitLinesAux_no_newline : ∀ (tail acc : List Char), '\n' ∉ tail →
    splitLinesAux tail acc = [] := by
  intro tail
  induction tail with
  | nil => intro acc _; rfl
  | cons c t ih =>
    intro acc hnl
    have hc : ¬ c = '\n' := by
      intro hcc
      exact hnl (by simp [hcc])
    rw [splitLinesAux.eq_def]
    simp only [if_neg hc]
    exact ih (acc ++ [c]) (fun hx => hnl (by simp [hx]))

/-- Splitting the concatenation of complete lines plus an unterminated
tail recovers exactly the complete lines: the tail never becomes a line. -/
theorem splitLines_join (tail : List Char) (htail : '\n' ∉ tail) :
    ∀ ls : List (List Char), (∀ l ∈ ls, ∃ b, l = b ++ ['\n'] ∧ '\n' ∉ b) →
    splitLines (joinLines ls ++ tail) = ls := by
  intro ls
  induction ls with
  | nil =>
    intro _
    exact splitLinesAux_no_newline tail [] htail
  | cons l ls ih =>
    intro hls
    obtain ⟨b, hb, hbn⟩ := hls l (by simp)
    rw [show joinLines (l :: ls) = l ++ joinLines ls from rfl, hb]
    rw [List.append_assoc, List.append_assoc]
    rw [show ['\n'] ++ (joinLines ls ++ tail) = '\n' :: (joinLines ls ++ tail) from rfl]
    unfold splitLines
    rw [splitLinesAux_line (joinLines ls ++ tail) b [] hbn]
    rw [show splitLinesAux (joinLines ls ++ tail) [] = splitLines (joinLines ls ++ tail) from rfl]
    rw [ih (fun x hx => hls x (by simp [hx]))]
    simp [hb]

/-- C10: when the stream's final chunk is not newline-terminated, it is
never handed to a scanner — its content is discarded with the read error
(`tail` here is arbitrary, including content that would match the pending
scanner).  So if the parse of the complete lines alone fails with the read
error because scanners are still pending, the parse of the whole stream
fails identically even though the unterminated final line would have
matched. -/
theorem claim_C10_unterminated_line (ls : List (List Char)) (tail : List Char)
    (hls : ∀ l ∈ ls, ∃ b, l = b ++ ['\n'] ∧ '\n' ∉ b)
    (htail : '\n' ∉ tail)
    (herr : readStatus ls = (zeroStatus, some ParseError.readError)) :
    NewStatus (joinLines ls ++ tail) = (zeroStatus, some ParseError.readError) := by
  show readStatus (splitLines (joinLines ls ++ tail)) = (zeroStatus, some ParseError.readError)
  rw [splitLines_join tail htail ls hls]
  exact herr

/-- C10 (witness): the stream `Pid: 123` with no trailing newline fails
with the read error although its single (unterminated) line matches the
pending `Pid:` scanner. -/
theorem claim_C10_witness :
    matchOK pidScanner "Pid: 123".toList = true ∧
    NewStatus (joinLines [] ++ "Pid: 123".toList) = (zeroStatus, some ParseError.readError) :=
  ⟨by decide, claim_C10_unterminated_line [] "Pid: 123".toList (by simp) (by decide) (by decide)⟩
